import Mathlib

/-!
Verification of the Triplit CLI schema-codegen serializer
(`packages/cli/src/commands/migrate/codegen.ts`).

The TypeScript source is shallowly embedded: JS runtime values become the
inductive `Value`, thrown errors become `Except CodegenError`, and JS objects
used as ordered mappings become association lists (insertion order is the
list order, matching the spec's "ordered mapping" input contract).
-/

namespace Codegen

/-- A JS runtime value as it can appear in default values, where-clause
operands, and other literal positions.  `other` stands for any runtime value
that is not a string / number / boolean / null (e.g. `undefined`, objects);
it carries the text that JS template interpolation would produce for it. -/
inductive Value where
  | str (s : String)
  | num (n : Int)
  | bool (b : Bool)
  | null
  | other (repr : String)
deriving DecidableEq, Repr

/-- `true` for the four literal kinds the value encoder supports. -/
def Value.isScalar : Value → Bool
  | .str _ => true
  | .num _ => true
  | .bool _ => true
  | .null => true
  | .other _ => false

/-- JS template-literal interpolation of a value, as in `` `${value}` ``. -/
def jsTemplateString : Value → String
  | .str s => s
  | .num n => toString n
  | .bool b => if b then "true" else "false"
  | .null => "null"
  | .other r => r

/-- The three distinct throw sites of the codegen module.  The source throws
plain `Error`s with distinct messages; the spec names them
`UnknownAttributeKindError` (``throw new Error(`Invalid type: ...`)``),
`InvalidDefaultFunctionError` (`'Invalid default function name'`) and
`UnsupportedLiteralError` (``throw new Error(`Invalid value: ...`)``). -/
inductive CodegenError where
  | unknownAttributeKind (tag : String)
  | invalidDefaultFunction
  | unsupportedLiteral (shown : String)
deriving DecidableEq, Repr

/-- `valueToJS` from the source: renders a string in double quotes, a number,
boolean or null verbatim, and throws for any other runtime value. -/
def valueToJS : Value → Except CodegenError String
  | .str s => .ok ("\"" ++ s ++ "\"")
  | .num n => .ok (toString n)
  | .bool b => .ok (if b then "true" else "false")
  | .null => .ok "null"
  | .other r => .error (.unsupportedLiteral r)

/-- A default value: either a literal (a non-object runtime value, dispatched
in the source by `typeof defaultValue === 'object' && defaultValue !== null`)
or a function-call object `\x7bfunc, args\x7d`.  The source reads `args` with
`args ? args.map(..).join(', ') : ''`, which renders `''` both for a missing
and for an empty argument list, so `args` is modelled as a plain list. -/
inductive DefaultValue where
  | lit (v : Value)
  | call (func : String) (args : List Value)
deriving DecidableEq, Repr

/-- JS `Array.prototype.join(sep)`: the elements interleaved with the
separator (empty string for an empty array). -/
def joinSep (sep : String) : List String → String
  | [] => ""
  | [a] => a
  | a :: rest => a ++ sep ++ joinSep sep rest

/-- The allow-list of default function names checked by the source
(`['now', 'uuid'].includes(func)`). -/
def allowedDefaultFunctions : List String := ["now", "uuid"]

/-- `args.map(valueToJS)` under JS semantics: encodes the arguments in
order, propagating the first thrown error. -/
def valueListToJS : List Value → Except CodegenError (List String)
  | [] => pure []
  | v :: rest => do
      let s ← valueToJS v
      let restStrs ← valueListToJS rest
      pure (s :: restStrs)

/-- `defaultValueToString` from the source: a function call validates its
name against the allow-list (throwing otherwise) and then renders
`S.Default.<func>(<args comma-joined through valueToJS>)`; a literal
delegates to `valueToJS`. -/
def defaultValueToString : DefaultValue → Except CodegenError String
  | .lit v => valueToJS v
  | .call func args =>
      if !(allowedDefaultFunctions.contains func) then
        .error .invalidDefaultFunction
      else do
        let parsedArgs ← valueListToJS args
        pure ("S.Default." ++ func ++ "(" ++ joinSep ", " parsedArgs ++ ")")

/-- `UserTypeOptions` as consumed by `valueOptionsToString`: an optional
`nullable` flag and an optional default value. -/
structure UserTypeOptions where
  nullable : Option Bool
  dflt : Option DefaultValue
deriving DecidableEq, Repr

/-- `valueOptionsToString` from the source: pushes `nullable: <b>` when
`nullable !== undefined`, then `default: <encoded>` when a default is
present, joins with `', '` and wraps in braces only when at least one entry
exists (otherwise the empty string). -/
def valueOptionsToString (options : UserTypeOptions) : Except CodegenError String := do
  let nullablePart : List String :=
    match options.nullable with
    | some b => ["nullable: " ++ (if b then "true" else "false")]
    | none => []
  let defaultPart : List String ←
    match options.dflt with
    | some d => do
        let ds ← defaultValueToString d
        pure ["default: " ++ ds]
    | none => pure []
  let result := nullablePart ++ defaultPart
  if result.length != 0 then
    pure ("\x7b" ++ joinSep ", " result ++ "\x7d")
  else
    pure ""

/-- JSON escaping of one character inside a JSON string, as produced by
`JSON.stringify` (quote, backslash and the common control characters; other
characters are emitted verbatim, matching the inputs exercised here). -/
def jsonEscapeChar (c : Char) : String :=
  if c = '"' then "\\\""
  else if c = '\\' then "\\\\"
  else if c = '\n' then "\\n"
  else if c = '\t' then "\\t"
  else if c = '\r' then "\\r"
  else String.singleton c

/-- `JSON.stringify` of a string. -/
def jsonString (s : String) : String :=
  "\"" ++ String.join (s.data.map jsonEscapeChar) ++ "\""

/-- `JSON.stringify` of a value appearing as a where-clause operand.
A non-scalar operand is rendered as JSON `null` (as `JSON.stringify` does
for `undefined` inside an array); the JSON body of an object operand is not
modelled further — no claim depends on it. -/
def jsonValue : Value → String
  | .str s => jsonString s
  | .num n => toString n
  | .bool b => if b then "true" else "false"
  | .null => "null"
  | .other _ => "null"

/-- One where-clause triple `[field, operator, value]` under `JSON.stringify`. -/
def jsonWhereClause (c : String × String × Value) : String :=
  "[" ++ jsonString c.1 ++ "," ++ jsonString c.2.1 ++ "," ++ jsonValue c.2.2 ++ "]"

/-- A `where` array under `JSON.stringify` (compact form, no spaces). -/
def jsonWhere (w : List (String × String × Value)) : String :=
  "[" ++ joinSep "," (w.map jsonWhereClause) ++ "]"

/-- One order pair `[field, direction]` under `JSON.stringify`. -/
def jsonOrderPair (p : String × String) : String :=
  "[" ++ jsonString p.1 ++ "," ++ jsonString p.2 ++ "]"

/-- An `order` array under `JSON.stringify`. -/
def jsonOrder (o : List (String × String)) : String :=
  "[" ++ joinSep "," (o.map jsonOrderPair) ++ "]"

/-- The subquery parameters of a relation query after `collectionName` has
been destructured away: the optional `where`, `limit` and `order` fields. -/
structure SubQuery where
  «where» : Option (List (String × String × Value))
  limit : Option Int
  order : Option (List (String × String))
deriving DecidableEq, Repr

/-- The member fragments of `subQueryToString`: `whereString`, `limitString`
and `orderString` from the source, with the empty ones filtered out.  Note
the source builds `limitString` with `` limit ? `limit: ${limit}` : '' ``, a
JS truthiness test, so a present limit of `0` yields the empty fragment. -/
def subQueryMembers (subquery : SubQuery) : List String :=
  let whereString :=
    match subquery.«where» with
    | some w => "where: " ++ jsonWhere w
    | none => ""
  let limitString :=
    match subquery.limit with
    | some n => if n == 0 then "" else "limit: " ++ toString n
    | none => ""
  let orderString :=
    match subquery.order with
    | some o => "order: " ++ jsonOrder o
    | none => ""
  [whereString, limitString, orderString].filter (fun str => str != "")

/-- `subQueryToString` from the source: the nonempty member fragments joined
with `', '` inside braces. -/
def subQueryToString (subquery : SubQuery) : String :=
  "\x7b" ++ joinSep ", " (subQueryMembers subquery) ++ "\x7d"

/-- A relation query as stored on a query attribute: the target collection
plus the subquery fields. -/
structure RelQuery where
  collectionName : String
  «where» : Option (List (String × String × Value))
  limit : Option Int
  order : Option (List (String × String))
deriving DecidableEq, Repr

/-- The rest-object `queryParams` left after destructuring `collectionName`
out of the query (`const { collectionName, ...queryParams } = query`). -/
def RelQuery.params (q : RelQuery) : SubQuery :=
  ⟨q.«where», q.limit, q.order⟩

/-- `Object.keys(queryParams).length`: how many of the three optional
subquery fields are present. -/
def SubQuery.presentCount (p : SubQuery) : Nat :=
  (if p.«where».isSome then 1 else 0) +
    (if p.limit.isSome then 1 else 0) +
    (if p.order.isSome then 1 else 0)

/-- The `isRelationById` test from the source:
`collectionName && query.where && query.where.length === 1 &&
query.where[0][0] === 'id' && query.where[0][1] === '=' &&
Object.keys(queryParams).length === 1`.  An empty `collectionName` is falsy
in JS, so it fails the test. -/
def isRelationById (q : RelQuery) : Bool :=
  (q.collectionName != "") &&
    (match q.«where» with
     | some w =>
       w.length == 1 &&
         (match w.head? with
          | some (f, op, _) => f == "id" && op == "="
          | none => false)
     | none => false) &&
    (q.params.presentCount == 1)

/-- `queryParams.where[0][2]`, the id value embedded by the by-id shorthand.
Only evaluated under `isRelationById`, which guarantees the clause exists;
the fallback arm is dead code needed for totality. -/
def whereIdValue : Option (List (String × String × Value)) → Value
  | some ((_, _, v) :: _) => v
  | _ => Value.other "undefined"

mutual
/-- `AttributeDefinition`: a tagged attribute node.  `other` stands for an
attribute whose `type` tag is any string outside the recognized set. -/
inductive Attribute where
  | string (options : UserTypeOptions)
  | boolean (options : UserTypeOptions)
  | number (options : UserTypeOptions)
  | date (options : UserTypeOptions)
  | set (items : Attribute) (options : UserTypeOptions)
  | record (properties : AttrProps) (optional : Option (List String))
  | query (cardinality : String) (q : RelQuery)
  | other (tag : String)

/-- The ordered `properties` mapping of a record attribute (a JS object in
insertion order), as an association list fused into the inductive so that
the encoder is structurally recursive. -/
inductive AttrProps where
  | nil
  | cons (key : String) (attr : Attribute) (rest : AttrProps)
end

/-- The `type` tag carried by an attribute node. -/
def Attribute.type : Attribute → String
  | .string _ => "string"
  | .boolean _ => "boolean"
  | .number _ => "number"
  | .date _ => "date"
  | .set _ _ => "set"
  | .record _ _ => "record"
  | .query _ _ => "query"
  | .other t => t

/-- The type tags the `switch` in `schemaItemToString` recognizes. -/
def knownAttributeTypes : List String :=
  ["string", "boolean", "number", "date", "set", "record", "query"]

/-- The keys of a properties mapping, in declaration order. -/
def AttrProps.keys : AttrProps → List String
  | .nil => []
  | .cons key _ rest => key :: rest.keys

/-- `excludeOptional` from the source: the type tags never wrapped in the
optional marker. -/
def excludeOptional : List String := ["query"]

/-- `wrapOptional` from the source. -/
def wrapOptional («type» : String) (optional : Bool) : String :=
  if optional then "S.Optional(" ++ «type» ++ ")" else «type»

mutual
/-- The `switch (type)` body of `schemaItemToString`, computing `result`
before the optional wrap.  The recursive calls of the source
(`schemaItemToString({attribute: ...})` for set items and record entries)
are inlined as `schemaItemResult` followed by the optional-wrap step so that
the recursion is structural; `schemaItemToString` below re-packages this as
in the source, and the lemmas `schemaItemToString_set` /
`recordEntryStrings_cons` recover the source's call shape. -/
def schemaItemResult : Attribute → Except CodegenError String
  | .string options => do pure ("S.String(" ++ (← valueOptionsToString options) ++ ")")
  | .boolean options => do pure ("S.Boolean(" ++ (← valueOptionsToString options) ++ ")")
  | .number options => do pure ("S.Number(" ++ (← valueOptionsToString options) ++ ")")
  | .date options => do pure ("S.Date(" ++ (← valueOptionsToString options) ++ ")")
  | .set items options => do
      let inner ← schemaItemResult items
      let innerWrapped :=
        if !(excludeOptional.contains items.type) then wrapOptional inner false else inner
      let os ← valueOptionsToString options
      pure ("S.Set(" ++ innerWrapped ++ "," ++ os ++ ")")
  | .record properties optional => do
      let entries ← recordEntryStrings properties optional
      pure ("S.Record(\x7b" ++ joinSep ",\n" entries ++ "\x7d)")
  | .query cardinality q =>
      if cardinality == "one" then
        if isRelationById q then
          .ok ("S.RelationById(\x27" ++ q.collectionName ++ "\x27, \x27" ++
            jsTemplateString (whereIdValue q.«where») ++ "\x27)")
        else
          .ok ("S.RelationOne(\x27" ++ q.collectionName ++ "\x27," ++
            subQueryToString q.params ++ ")")
      else
        .ok ("S.RelationMany(\x27" ++ q.collectionName ++ "\x27," ++
          subQueryToString q.params ++ ")")
  | .other tag => .error (.unknownAttributeKind tag)

/-- The record branch's `Object.entries(attribute.properties).map(...)`:
each entry looks up its own key in the record's `optional` list
(`attribute.optional?.includes(key) ?? false`) and encodes the child with
that flag. -/
def recordEntryStrings : AttrProps → Option (List String) → Except CodegenError (List String)
  | .nil, _ => pure []
  | .cons key attr rest, optional => do
      let opt := (optional.getD []).contains key
      let r ← schemaItemResult attr
      let s := if !(excludeOptional.contains attr.type) then wrapOptional r opt else r
      let restStrings ← recordEntryStrings rest optional
      pure (("\x27" ++ key ++ "\x27: " ++ s) :: restStrings)
end

/-- `schemaItemToString` from the source: computes the `switch` result and
wraps it in the optional marker unless the type is excluded; a missing
`optional` field reads as `false` (`optional ?? false`). -/
def schemaItemToString (attr : Attribute) (optional : Option Bool) :
    Except CodegenError String := do
  let result ← schemaItemResult attr
  if !(excludeOptional.contains attr.type) then
    pure (wrapOptional result (optional.getD false))
  else
    pure result

/-- The root `schema` object of a collection: an ordered properties mapping
plus this level's `optional` key list. -/
structure CollectionSchema where
  properties : AttrProps
  optional : Option (List String)

/-- `CollectionDefinition`: the attribute tree plus the opaque `rules`
value.  The rules value is only ever passed through
`JSON.stringify(rules, null, 2)` and reindented, so it is modelled by that
stringified text directly. -/
structure CollectionDefinition where
  schema : CollectionSchema
  rules : Option String

/-- The schema IR: a version and the ordered collections mapping. -/
structure SchemaIR where
  version : Int
  collections : List (String × CollectionDefinition)

/-- The module-level `indentation` constant (two spaces). -/
def indentation : String := "  "

/-- `generateAttributeSchema` from the source: renders one property entry,
recursing through a multi-segment path (only ever called with a singleton
path by `generateAttributesSection`). -/
def generateAttributeSchema (path : List String) (attr : Attribute)
    (optional : Option Bool) (indent : String) : Except CodegenError String :=
  match path with
  | [] => schemaItemToString attr optional
  | [p] => do
      pure (indent ++ "\x27" ++ p ++ "\x27: " ++ (← schemaItemToString attr optional) ++ ",\n")
  | head :: tail => do
      pure (indent ++ "\x27" ++ head ++ "\x27: \x7b\n" ++
        (← generateAttributeSchema tail attr optional (indent ++ indentation)) ++
        indent ++ "\x7d,\n")

/-- The `for (const path in schema.properties)` loop body of
`generateAttributesSection`: each top-level property looks up its key in
the root `optional` list (`schema.optional?.includes(path) ?? false`). -/
def generateAttributesLoop (props : AttrProps) (optional : Option (List String))
    (indent : String) : Except CodegenError String :=
  match props with
  | .nil => pure ""
  | .cons path itemInfo rest => do
      let opt := (optional.getD []).contains path
      let entry ← generateAttributeSchema [path] itemInfo (some opt) (indent ++ indentation)
      let restStr ← generateAttributesLoop rest optional indent
      pure (entry ++ restStr)

/-- `generateAttributesSection` from the source: wraps the property entries
in `schema: S.Schema(\x7b ... \x7d),`. -/
def generateAttributesSection (schema : CollectionSchema) (indent : String) :
    Except CodegenError String := do
  pure (indent ++ "schema: S.Schema(\x7b\n" ++
    (← generateAttributesLoop schema.properties schema.optional indent) ++
    indent ++ "\x7d),\n")

/-- `generateRulesSection` from the source: nothing when rules are absent,
otherwise the stringified rules reindented by joining its lines with the
current indent (`JSON.stringify(rules, null, 2).split('\n').join('\n' + indent)`). -/
def generateRulesSection (rules : Option String) (indent : String) : String :=
  match rules with
  | none => ""
  | some rulesJson =>
      indent ++ "rules: " ++ joinSep ("\n" ++ indent) (rulesJson.splitOn "\n")

/-- The `for (let collectionKey in collectionsDefinition)` loop of
`collectionsDefinitionToFileContent`, accumulating one block per collection
in mapping order. -/
def collectionsLoop (cs : List (String × CollectionDefinition)) (indent : String) :
    Except CodegenError String :=
  match cs with
  | [] => pure ""
  | (collectionKey, cd) :: rest => do
      let attrs ← generateAttributesSection cd.schema (indent ++ indentation)
      let rules := generateRulesSection cd.rules (indent ++ indentation)
      let restStr ← collectionsLoop rest indent
      pure (indent ++ "\x27" ++ collectionKey ++ "\x27: \x7b\n" ++ attrs ++ rules ++
        indent ++ "\x7d,\n" ++ restStr)

/-- `collectionsDefinitionToFileContent` from the source (the default
`indent` argument is `indentation`; callers here pass it explicitly). -/
def collectionsDefinitionToFileContent (cs : List (String × CollectionDefinition))
    (indent : String) : Except CodegenError String := do
  let body ← collectionsLoop cs indent
  pure ("\x7b\n" ++ body ++ indent.dropRight 2 ++ "\x7d")

/-- JS `String.prototype.trim`: strips leading and trailing whitespace. -/
def jsTrim (s : String) : String :=
  String.mk (((s.data.dropWhile Char.isWhitespace).reverse.dropWhile Char.isWhitespace).reverse)

/-- `schemaFileContentFromJSON` from the source: renders the collections
(`schemaJSON?.collections ?? {}`), splices them into the module template
(header comment, import line, exported constant), trims the template and
appends a final newline. -/
def schemaFileContentFromJSON (schemaJSON : Option SchemaIR) :
    Except CodegenError String := do
  let schemaContent ← collectionsDefinitionToFileContent
    (match schemaJSON with
     | some j => j.collections
     | none => []) indentation
  pure (jsTrim ("\n/**\n * This file is auto-generated by the Triplit CLI.\n */ \n\n" ++
    "import \x7b Schema as S \x7d from \x27@triplit/db\x27;\n" ++
    "export const schema = " ++ schemaContent ++ ";\n      ") ++ "\n")

/-- Modelled from the spec: `schemaToJSON` lives in `@triplit/db`, which is
not under `src/`.  Per the spec's input boundary (§6), an undefined schema
means nothing to generate, and the IR consumed here is already the JSON
shape `\x7bversion, collections\x7d`, so the conversion maps `none` to
`none` and is the identity otherwise. -/
def schemaToJSON : Option SchemaIR → Option SchemaIR :=
  fun schema => schema

/-- `schemaFileContentFromSchema` from the source: converts the (possibly
undefined) schema to JSON form and renders the module text. -/
def schemaFileContentFromSchema (schema : Option SchemaIR) : Except CodegenError String :=
  schemaFileContentFromJSON (schemaToJSON schema)

/-- Whether the needle (first argument) is a character-wise prefix of the
haystack (second argument). -/
def charsPrefix : List Char → List Char → Bool
  | [], _ => true
  | _ :: _, [] => false
  | d :: ds, c :: cs => d == c && charsPrefix ds cs

/-- Whether the needle (second argument) occurs anywhere in the haystack
(first argument). -/
def charsHaveSub : List Char → List Char → Bool
  | [], pat => charsPrefix pat []
  | c :: rest, pat => charsPrefix pat (c :: rest) || charsHaveSub rest pat

/-- Whether `pat` occurs in `s` as a substring. -/
def hasSubstr (s pat : String) : Bool :=
  charsHaveSub s.data pat.data

mutual
/-- Whether every `type` tag in an attribute subtree is one of the
recognized kinds (`other` nodes make this false). -/
def Attribute.kindsKnown : Attribute → Bool
  | .set items _ => items.kindsKnown
  | .record props _ => props.kindsKnown
  | .other _ => false
  | _ => true

/-- `kindsKnown` over a properties mapping. -/
def AttrProps.kindsKnown : AttrProps → Bool
  | .nil => true
  | .cons _ a rest => a.kindsKnown && rest.kindsKnown
end

/-- Whether an optional where-clause list is exactly one `id`-equality
clause (the shape singled out by the by-id shorthand). -/
def singleIdEqWhere : Option (List (String × String × Value)) → Bool
  | some [(f, op, _)] => f == "id" && op == "="
  | _ => false

/-- Whether a rendered fragment is the member for the given field, i.e.
starts with `<key>: `. -/
def memberFor (key : String) (m : String) : Bool :=
  charsPrefix (key ++ ": ").data m.data

/-- The text `s` contains the given markers, in order and without overlap:
each marker occurs after the end of the previous one. -/
def emitsInOrder : String → List String → Prop
  | _, [] => True
  | s, m :: ms => ∃ p r, s = p ++ m ++ r ∧ emitsInOrder r ms

/-! ## General helper lemmas -/

@[simp] theorem exceptBindOk {α β ε : Type} (a : α) (f : α → Except ε β) :
    (Except.ok a >>= f) = f a := rfl

@[simp] theorem exceptBindErr {α β ε : Type} (e : ε) (f : α → Except ε β) :
    ((Except.error e : Except ε α) >>= f) = Except.error e := rfl

@[simp] theorem exceptPureEq {α ε : Type} (a : α) :
    (pure a : Except ε α) = Except.ok a := rfl

@[simp] theorem exceptMapOk {α β ε : Type} (f : α → β) (a : α) :
    (f <$> (Except.ok a : Except ε α)) = Except.ok (f a) := rfl

@[simp] theorem exceptMapErr {α β ε : Type} (f : α → β) (e : ε) :
    (f <$> (Except.error e : Except ε α)) = Except.error e := rfl

theorem String.eq_of_data_eq {s t : String} (h : s.data = t.data) : s = t := by
  cases s; cases t; exact congrArg String.mk h

theorem append_ne_append_of_ne {p q : String} (x y : String)
    (hlen : p.length = q.length) (hne : p ≠ q) : p ++ x ≠ q ++ y := by
  intro h
  apply hne
  have hd : p.data ++ x.data = q.data ++ y.data := by
    have := congrArg String.data h
    simpa [String.data_append] using this
  have hlen' : p.data.length = q.data.length := hlen
  exact String.eq_of_data_eq (List.append_inj_left hd hlen')

theorem append_ne_empty_left {p : String} (x : String) (h : p ≠ "") : p ++ x ≠ "" := by
  intro hcontra
  apply h
  have := congrArg String.length hcontra
  simp [String.length_append] at this
  have : p.length = 0 := by omega
  cases p with
  | mk data =>
    cases data with
    | nil => rfl
    | cons c cs => simp [String.length] at this

/-- `valueListToJS` succeeds whenever every argument is scalar. -/
theorem valueListToJS_ok_of_scalar (args : List Value)
    (h : ∀ v ∈ args, v.isScalar = true) :
    ∃ l, valueListToJS args = Except.ok l := by
  induction args with
  | nil => exact ⟨[], rfl⟩
  | cons a rest ih =>
    obtain ⟨l, hl⟩ := ih (fun v hv => h v (List.mem_cons_of_mem a hv))
    have ha := h a (List.mem_cons_self a rest)
    cases a with
    | str s =>
      exact ⟨("\"" ++ s ++ "\"") :: l, by simp [valueListToJS, valueToJS, hl]⟩
    | num n => exact ⟨toString n :: l, by simp [valueListToJS, valueToJS, hl]⟩
    | bool b =>
      exact ⟨(if b then "true" else "false") :: l, by simp [valueListToJS, valueToJS, hl]⟩
    | null => exact ⟨"null" :: l, by simp [valueListToJS, valueToJS, hl]⟩
    | other r => simp [Value.isScalar] at ha

/-! ## Claim theorems: the value encoder -/

/-- C6: `valueToJS` (the spec's `encodeLiteral`) succeeds exactly on the
four scalar runtime kinds — string, number, boolean, null — and raises
`UnsupportedLiteralError` on every other runtime value. -/
theorem claim6_literal_encoder_domain (v : Value) :
    ((valueToJS v).isOk = v.isScalar) ∧
      (v.isScalar = false →
        valueToJS v = .error (.unsupportedLiteral (jsTemplateString v))) := by
  cases v <;> simp [valueToJS, Value.isScalar, jsTemplateString, Except.isOk, Except.toBool]

/-- Witness for C6 at the concrete non-scalar value `undefined`. -/
theorem claim6_witness :
    valueToJS (Value.other "undefined") = .error (.unsupportedLiteral "undefined") :=
  (claim6_literal_encoder_domain (Value.other "undefined")).2 rfl

/-- C5: a function-call default encodes successfully exactly when its name
is on the `now`/`uuid` allow-list (given literal-encodable arguments),
rendering `S.Default.<func>(<comma-joined encoded args>)` — an empty
argument list yields an empty call — and any other name raises
`InvalidDefaultFunctionError`. -/
theorem claim5_default_function_allow_list (func : String) (args : List Value)
    (argStrs : List String) :
    (func ∉ allowedDefaultFunctions →
      defaultValueToString (.call func args) = .error .invalidDefaultFunction) ∧
    (func ∈ allowedDefaultFunctions → valueListToJS args = .ok argStrs →
      defaultValueToString (.call func args) =
        .ok ("S.Default." ++ func ++ "(" ++ joinSep ", " argStrs ++ ")")) ∧
    ((∀ v ∈ args, v.isScalar = true) →
      ((defaultValueToString (.call func args)).isOk = true ↔
        func ∈ allowedDefaultFunctions)) := by
  refine ⟨?_, ?_, ?_⟩
  · intro h
    simp [defaultValueToString, h]
  · intro h hargs
    simp [defaultValueToString, h, hargs]
  · intro hscalar
    obtain ⟨l, hl⟩ := valueListToJS_ok_of_scalar args hscalar
    constructor
    · intro hok
      by_contra hmem
      simp [defaultValueToString, hmem, Except.isOk, Except.toBool] at hok
    · intro hmem
      simp [defaultValueToString, hmem, hl, Except.isOk, Except.toBool]

/-- Witness for C5: the zero-argument `uuid` call from the spec's example
encodes to an empty call, and the disallowed name `sum` errors. -/
theorem claim5_witness :
    defaultValueToString (.call "uuid" []) = .ok "S.Default.uuid()" ∧
      defaultValueToString (.call "sum" []) = .error .invalidDefaultFunction := by
  constructor
  · have := (claim5_default_function_allow_list "uuid" [] []).2.1
      (by decide) rfl
    simpa [joinSep] using this
  · exact (claim5_default_function_allow_list "sum" [] []).1 (by decide)

/-- C7: `valueOptionsToString` emits a `nullable` entry exactly when the
flag is explicitly set (rendered as-is, including `false`), a `default`
entry exactly when a default is present (via `defaultValueToString`), joins
the entries with `', '` inside braces, and yields the empty string — not an
empty braces literal — when neither key is present. -/
theorem claim7_value_options_fragment (options : UserTypeOptions) (b : Bool)
    (d : DefaultValue) (ds : String) :
    (options.nullable = none → options.dflt = none →
      valueOptionsToString options = .ok "") ∧
    (options.nullable = some b → options.dflt = none →
      valueOptionsToString options =
        .ok ("\x7bnullable: " ++ (if b then "true" else "false") ++ "\x7d")) ∧
    (options.nullable = none → options.dflt = some d →
      defaultValueToString d = .ok ds →
      valueOptionsToString options = .ok ("\x7bdefault: " ++ ds ++ "\x7d")) ∧
    (options.nullable = some b → options.dflt = some d →
      defaultValueToString d = .ok ds →
      valueOptionsToString options =
        .ok ("\x7bnullable: " ++ (if b then "true" else "false") ++
          ", default: " ++ ds ++ "\x7d")) := by
  obtain ⟨nb, dflt⟩ := options
  refine ⟨?_, ?_, ?_, ?_⟩ <;> intro h1 h2 <;> subst h1 <;> subst h2
  · rfl
  · rfl
  · intro h3
    simp only [valueOptionsToString, h3]
    rfl
  · intro h3
    cases b <;> (simp only [valueOptionsToString, h3]; rfl)

/-- Witness for C7 at `\x7bnullable := false, no default\x7d`: the explicit
`false` is still rendered. -/
theorem claim7_witness :
    valueOptionsToString ⟨some false, none⟩ = .ok "\x7bnullable: false\x7d" := by
  have := (claim7_value_options_fragment ⟨some false, none⟩ false
    (.lit Value.null) "null").2.1 rfl rfl
  simpa using this

/-! ## Claim theorems: relation rendering -/

/-- Evaluation of the by-id branch: a one-cardinality relation on a
nonempty collection whose query is exactly one `id = v` where clause. -/
theorem schemaItemToString_byId (cn : String) (v : Value) (opt : Option Bool)
    (h : cn ≠ "") :
    schemaItemToString (.query "one" ⟨cn, some [("id", "=", v)], none, none⟩) opt =
      .ok ("S.RelationById(\x27" ++ cn ++ "\x27, \x27" ++ jsTemplateString v ++ "\x27)") := by
  have hby : isRelationById ⟨cn, some [("id", "=", v)], none, none⟩ = true := by
    simp [isRelationById, RelQuery.params, SubQuery.presentCount, h]
  simp [schemaItemToString, schemaItemResult, Attribute.type, excludeOptional, hby,
    whereIdValue]

/-- Evaluation of the general one-cardinality branch. -/
theorem schemaItemToString_relationOne (q : RelQuery) (opt : Option Bool)
    (h : isRelationById q = false) :
    schemaItemToString (.query "one" q) opt =
      .ok ("S.RelationOne(\x27" ++ q.collectionName ++ "\x27," ++
        subQueryToString q.params ++ ")") := by
  simp [schemaItemToString, schemaItemResult, Attribute.type, excludeOptional, h]

/-- Evaluation of the many-cardinality branch. -/
theorem schemaItemToString_relationMany (q : RelQuery) (opt : Option Bool) :
    schemaItemToString (.query "many" q) opt =
      .ok ("S.RelationMany(\x27" ++ q.collectionName ++ "\x27," ++
        subQueryToString q.params ++ ")") := by
  simp [schemaItemToString, schemaItemResult, Attribute.type, excludeOptional]

/-- The `isRelationById` test fails whenever the collection name is empty,
a `limit` or `order` field is also present, or the where clause is not a
single id-equality. -/
theorem isRelationById_eq_false (q : RelQuery)
    (h : q.collectionName = "" ∨ q.limit.isSome = true ∨ q.order.isSome = true ∨
      singleIdEqWhere q.«where» = false) :
    isRelationById q = false := by
  rcases q with ⟨cn, w, lim, ord⟩
  rcases h with h | h | h | h
  · subst h
    simp [isRelationById]
  · rcases w with _ | w'
    · simp [isRelationById]
    · rcases lim with _ | n
      · simp at h
      · rcases ord with _ | o <;>
          simp [isRelationById, RelQuery.params, SubQuery.presentCount]
  · rcases w with _ | w'
    · simp [isRelationById]
    · rcases ord with _ | o
      · simp at h
      · rcases lim with _ | n <;>
          simp [isRelationById, RelQuery.params, SubQuery.presentCount]
  · rcases w with _ | w'
    · simp [isRelationById]
    · rcases w' with _ | ⟨⟨f, op, v⟩, rest⟩
      · simp [isRelationById]
      · rcases rest with _ | ⟨c2, rest2⟩
        · simp only [singleIdEqWhere] at h
          simp [isRelationById, h]
        · simp [isRelationById]

/-- C1 (amended): a one-cardinality relation whose query is exactly one
`id = V` where clause, no limit and no order, renders the compact
`RelationById` form provided its target collection name is nonempty; a
one-cardinality relation with an empty collection name, an additional
present field, or a differing where clause renders the general
`RelationOne` form; and a many-cardinality relation always renders
`RelationMany`. -/
theorem claim1_relation_form_selection (cn : String) (v : Value) (q : RelQuery)
    (opt : Option Bool) :
    (cn ≠ "" →
      schemaItemToString (.query "one" ⟨cn, some [("id", "=", v)], none, none⟩) opt =
        .ok ("S.RelationById(\x27" ++ cn ++ "\x27, \x27" ++ jsTemplateString v ++ "\x27)")) ∧
    (q.collectionName = "" ∨ q.limit.isSome = true ∨ q.order.isSome = true ∨
        singleIdEqWhere q.«where» = false →
      schemaItemToString (.query "one" q) opt =
        .ok ("S.RelationOne(\x27" ++ q.collectionName ++ "\x27," ++
          subQueryToString q.params ++ ")")) ∧
    (schemaItemToString (.query "many" q) opt =
      .ok ("S.RelationMany(\x27" ++ q.collectionName ++ "\x27," ++
        subQueryToString q.params ++ ")")) :=
  ⟨fun h => schemaItemToString_byId cn v opt h,
   fun h => schemaItemToString_relationOne q opt (isRelationById_eq_false q h),
   schemaItemToString_relationMany q opt⟩

/-- Counterexample to C1 as stated: the relation
`\x7bcardinality: one, targetCollection: "", query: \x7bwhere: [["id", "=", "42"]]\x7d\x7d`
has exactly one `id`-equality where clause and no other query field, yet it
renders the general `RelationOne` form, not the compact by-id form, because
the empty collection name is falsy in the source's `isRelationById` test. -/
theorem claim1_counterexample :
    schemaItemToString
        (.query "one" ⟨"", some [("id", "=", Value.str "42")], none, none⟩) none =
      .ok "S.RelationOne(\x27\x27,\x7bwhere: [[\"id\",\"=\",\"42\"]]\x7d)" ∧
    hasSubstr "S.RelationOne(\x27\x27,\x7bwhere: [[\"id\",\"=\",\"42\"]]\x7d)"
      "RelationById" = false :=
  ⟨rfl, rfl⟩

/-- Witness for C1 at a concrete nonempty collection name. -/
theorem claim1_witness :
    schemaItemToString
        (.query "one" ⟨"users", some [("id", "=", Value.str "42")], none, none⟩) none =
      .ok "S.RelationById(\x27users\x27, \x2742\x27)" := by
  have := (claim1_relation_form_selection "users" (Value.str "42")
    ⟨"users", some [("id", "=", Value.str "42")], none, none⟩ none).1 (by decide)
  simpa using this

/-- C10: whenever the by-id shorthand applies, the id value from the where
clause is embedded between single quotes by raw template interpolation —
no literal encoding and no type check.  The number `42` and the string
`"42"` interpolate identically, and a non-scalar id value still succeeds
(no `UnsupportedLiteralError` on this path). -/
theorem claim10_byId_raw_interpolation (cn : String) (v : Value) (r : String)
    (opt : Option Bool) (h : cn ≠ "") :
    (schemaItemToString (.query "one" ⟨cn, some [("id", "=", v)], none, none⟩) opt =
      .ok ("S.RelationById(\x27" ++ cn ++ "\x27, \x27" ++ jsTemplateString v ++ "\x27)")) ∧
    (schemaItemToString
        (.query "one" ⟨cn, some [("id", "=", Value.num 42)], none, none⟩) opt =
      schemaItemToString
        (.query "one" ⟨cn, some [("id", "=", Value.str "42")], none, none⟩) opt) ∧
    (schemaItemToString
        (.query "one" ⟨cn, some [("id", "=", Value.other r)], none, none⟩) opt =
      .ok ("S.RelationById(\x27" ++ cn ++ "\x27, \x27" ++ r ++ "\x27)")) := by
  refine ⟨schemaItemToString_byId cn v opt h, ?_, ?_⟩
  · rw [schemaItemToString_byId cn (Value.num 42) opt h,
      schemaItemToString_byId cn (Value.str "42") opt h,
      show jsTemplateString (Value.num 42) = jsTemplateString (Value.str "42") from rfl]
  · exact schemaItemToString_byId cn (Value.other r) opt h

/-- Witness for C10 at `users` with an object id value. -/
theorem claim10_witness :
    schemaItemToString
        (.query "one"
          ⟨"users", some [("id", "=", Value.other "[object Object]")], none, none⟩)
        none =
      .ok "S.RelationById(\x27users\x27, \x27[object Object]\x27)" := by
  have := (claim10_byId_raw_interpolation "users" Value.null "[object Object]" none
    (by decide)).2.2
  simpa using this

/-! ## Claim theorems: subquery rendering -/

/-- Structured form of `subQueryMembers`: one member per present field, in
where/limit/order sequence, where a present `limit` contributes a member
only when nonzero (JS truthiness). -/
theorem subQueryMembers_eq (q : SubQuery) :
    subQueryMembers q =
      (match q.«where» with
       | some w => ["where: " ++ jsonWhere w]
       | none => []) ++
      (match q.limit with
       | some n => if n = 0 then [] else ["limit: " ++ toString n]
       | none => []) ++
      (match q.order with
       | some o => ["order: " ++ jsonOrder o]
       | none => []) := by
  have hW : ∀ w, (("where: " ++ jsonWhere w) != "") = true := fun w => by
    simp only [bne_iff_ne, ne_eq]
    exact append_ne_empty_left _ (by decide)
  have hL : ∀ n : Int, (("limit: " ++ toString n) != "") = true := fun n => by
    simp only [bne_iff_ne, ne_eq]
    exact append_ne_empty_left _ (by decide)
  have hO : ∀ o, (("order: " ++ jsonOrder o) != "") = true := fun o => by
    simp only [bne_iff_ne, ne_eq]
    exact append_ne_empty_left _ (by decide)
  rcases q with ⟨w, lim, ord⟩
  rcases w with _ | w <;> rcases lim with _ | n <;> rcases ord with _ | o <;>
    first
    | (by_cases hn : n = 0 <;>
        simp [subQueryMembers, hW, hL, hO, hn])
    | simp [subQueryMembers, hW, hL, hO]

/-- C2 (amended): the rendered subquery object literal is the nonempty
member fragments joined inside braces; it contains a `where` (resp.
`order`) member exactly when that field is present, each absent field being
omitted entirely, and a `limit` member exactly when `limit` is present and
nonzero — a present `limit` of `0` is dropped by the source's truthiness
test.  A present nonzero limit contributes the member `limit: <n>`. -/
theorem claim2_subquery_member_presence (q : SubQuery) :
    (subQueryToString q = "\x7b" ++ joinSep ", " (subQueryMembers q) ++ "\x7d") ∧
    ((subQueryMembers q).any (memberFor "where") = true ↔ q.«where».isSome = true) ∧
    ((subQueryMembers q).any (memberFor "limit") = true ↔
      ∃ n, q.limit = some n ∧ n ≠ 0) ∧
    ((subQueryMembers q).any (memberFor "order") = true ↔ q.order.isSome = true) ∧
    (∀ n, q.limit = some n → n ≠ 0 → ("limit: " ++ toString n) ∈ subQueryMembers q) := by
  have mWW : ∀ w, memberFor "where" ("where: " ++ jsonWhere w) = true := fun w => rfl
  have mWL : ∀ n : Int, memberFor "where" ("limit: " ++ toString n) = false := fun n => rfl
  have mWO : ∀ o, memberFor "where" ("order: " ++ jsonOrder o) = false := fun o => rfl
  have mLW : ∀ w, memberFor "limit" ("where: " ++ jsonWhere w) = false := fun w => rfl
  have mLL : ∀ n : Int, memberFor "limit" ("limit: " ++ toString n) = true := fun n => rfl
  have mLO : ∀ o, memberFor "limit" ("order: " ++ jsonOrder o) = false := fun o => rfl
  have mOW : ∀ w, memberFor "order" ("where: " ++ jsonWhere w) = false := fun w => rfl
  have mOL : ∀ n : Int, memberFor "order" ("limit: " ++ toString n) = false := fun n => rfl
  have mOO : ∀ o, memberFor "order" ("order: " ++ jsonOrder o) = true := fun o => rfl
  refine ⟨rfl, ?_, ?_, ?_, ?_⟩ <;>
    · rw [subQueryMembers_eq]
      rcases q with ⟨w, lim, ord⟩
      rcases w with _ | w <;> rcases lim with _ | n <;> rcases ord with _ | o <;>
        first
        | (by_cases hn : n = 0 <;>
            simp [hn, mWW, mWL, mWO, mLW, mLL, mLO, mOW, mOL, mOO])
        | simp [mWW, mWL, mWO, mLW, mLL, mLO, mOW, mOL, mOO]

/-- Counterexample to C2 as stated: the subquery `\x7blimit: 0\x7d` has a
present `limit`, yet the rendered literal is empty — it contains no limit
member at all. -/
theorem claim2_counterexample :
    subQueryToString ⟨none, some 0, none⟩ = "\x7b\x7d" ∧
      hasSubstr "\x7b\x7d" "limit" = false :=
  ⟨rfl, rfl⟩

/-- Witness for C2: a present nonzero limit yields its member. -/
theorem claim2_witness :
    ("limit: 5" : String) ∈ subQueryMembers ⟨none, some 5, none⟩ :=
  (claim2_subquery_member_presence ⟨none, some 5, none⟩).2.2.2.2 5 rfl (by decide)

/-! ## Claim theorems: optional wrapping -/

/-- C3: the optional marker wraps an encoded attribute exactly according to
the boolean passed down by the containing tree — `true` wraps in
`S.Optional(...)`, `false` or an absent flag leaves the text unwrapped —
except that a relation (`query`) attribute is never wrapped; and a record
entry derives that boolean for each child precisely from membership of the
child's own key in the record's `optional` list. -/
theorem claim3_optional_indirection (a : Attribute) (s : String) (k : String)
    (ps : AttrProps) (opts : Option (List String)) :
    (a.type ≠ "query" → schemaItemResult a = .ok s →
      schemaItemToString a (some true) = .ok (wrapOptional s true) ∧
      schemaItemToString a (some false) = .ok s ∧
      schemaItemToString a none = .ok s) ∧
    (∀ (card : String) (q : RelQuery) (opt opt' : Option Bool),
      schemaItemToString (.query card q) opt = schemaItemToString (.query card q) opt') ∧
    (∀ entries, recordEntryStrings (.cons k a ps) opts = .ok entries →
      ∃ t rest, entries = ("\x27" ++ k ++ "\x27: " ++ t) :: rest ∧
        schemaItemToString a (some ((opts.getD []).contains k)) = .ok t ∧
        recordEntryStrings ps opts = .ok rest) := by
  refine ⟨?_, ?_, ?_⟩
  · intro ht hok
    simp [schemaItemToString, hok, excludeOptional, ht, wrapOptional]
  · intro card q opt opt'
    simp [schemaItemToString, Attribute.type, excludeOptional]
  · intro entries h
    cases hr : schemaItemResult a with
    | error e => simp [recordEntryStrings, hr] at h
    | ok r =>
      cases hrest : recordEntryStrings ps opts with
      | error e => simp [recordEntryStrings, hr, hrest] at h
      | ok rest =>
        simp only [recordEntryStrings, hr, hrest, exceptBindOk, exceptMapOk,
          exceptPureEq, Except.ok.injEq] at h
        subst h
        refine ⟨_, rest, rfl, ?_, rfl⟩
        simp only [schemaItemToString, hr, exceptBindOk]
        split <;> simp_all [excludeOptional, Attribute.type]

/-- Witness for C3: a string attribute wraps when flagged and stays bare
otherwise, and a record entry whose key is in the record's `optional` list
is rendered wrapped. -/
theorem claim3_witness :
    (schemaItemToString (.string ⟨none, none⟩) (some true) =
        .ok (wrapOptional "S.String()" true) ∧
      schemaItemToString (.string ⟨none, none⟩) (some false) = .ok "S.String()" ∧
      schemaItemToString (.string ⟨none, none⟩) none = .ok "S.String()") ∧
    (∃ t rest,
      ["\x27k\x27: S.Optional(S.String())"] = ("\x27k\x27: " ++ t) :: rest ∧
        schemaItemToString (.string ⟨none, none⟩)
          (some (((some ["k"]).getD []).contains "k")) = .ok t ∧
        recordEntryStrings .nil (some ["k"]) = .ok rest) :=
  ⟨(claim3_optional_indirection (.string ⟨none, none⟩) "S.String()" "k" .nil
      (some ["k"])).1 (by decide) rfl,
   (claim3_optional_indirection (.string ⟨none, none⟩) "S.String()" "k" .nil
      (some ["k"])).2.2 ["\x27k\x27: S.Optional(S.String())"] rfl⟩

theorem emitsInOrder_prepend (p s : String) (ms : List String)
    (h : emitsInOrder s ms) : emitsInOrder (p ++ s) ms := by
  cases ms with
  | nil => trivial
  | cons m ms' =>
    obtain ⟨q, r, hs, hrest⟩ := h
    refine ⟨p ++ q, r, ?_, hrest⟩
    rw [hs]
    simp [String.append_assoc]

theorem emitsInOrder_append (s t : String) (ms : List String)
    (h : emitsInOrder s ms) : emitsInOrder (s ++ t) ms := by
  induction ms generalizing s with
  | nil => trivial
  | cons m ms' ih =>
    obtain ⟨q, r, hs, hrest⟩ := h
    refine ⟨q, r ++ t, ?_, ih r hrest⟩
    rw [hs]
    simp [String.append_assoc]

/-- Joining fragments that each start with their own marker emits the
markers in order. -/
theorem emitsInOrder_joinSep (sep : String) (l ms : List String)
    (h : List.Forall₂ (fun m marker => ∃ t, m = marker ++ t) l ms) :
    emitsInOrder (joinSep sep l) ms := by
  induction h with
  | nil => trivial
  | @cons m marker l' ms' hpair hrest ih =>
    obtain ⟨t, hm⟩ := hpair
    cases l' with
    | nil =>
      cases hrest
      refine ⟨"", t, ?_, trivial⟩
      rw [show joinSep sep [m] = m from rfl, hm]
      simp [String.append_assoc]
    | cons x xs =>
      refine ⟨"", t ++ (sep ++ joinSep sep (x :: xs)), ?_,
        emitsInOrder_prepend t _ _ (emitsInOrder_prepend sep _ _ ih)⟩
      rw [show joinSep sep (m :: x :: xs) = m ++ sep ++ joinSep sep (x :: xs) from rfl, hm]
      simp [String.append_assoc]

/-! ## Claim theorems: unknown attribute kinds and error propagation -/

mutual
/-- A successful `schemaItemResult` implies every type tag in the attribute
subtree is recognized. -/
theorem kindsKnown_of_result_ok : ∀ (a : Attribute) (s : String),
    schemaItemResult a = .ok s → a.kindsKnown = true
  | .string _, _, _ => rfl
  | .boolean _, _, _ => rfl
  | .number _, _, _ => rfl
  | .date _, _, _ => rfl
  | .set items o, s, h => by
      cases hi : schemaItemResult items with
      | error e => simp [schemaItemResult, hi] at h
      | ok r =>
        simpa [Attribute.kindsKnown] using kindsKnown_of_result_ok items r hi
  | .record props opts, s, h => by
      cases hp : recordEntryStrings props opts with
      | error e => simp [schemaItemResult, hp] at h
      | ok l =>
        simpa [Attribute.kindsKnown] using kindsKnownProps_of_ok props opts l hp
  | .query _ _, _, _ => rfl
  | .other t, s, h => by simp [schemaItemResult] at h

/-- A successful `recordEntryStrings` implies every entry's subtree has
recognized type tags. -/
theorem kindsKnownProps_of_ok : ∀ (ps : AttrProps) (opts : Option (List String))
    (l : List String), recordEntryStrings ps opts = .ok l → ps.kindsKnown = true
  | .nil, _, _, _ => rfl
  | .cons k a rest, opts, l, h => by
      cases ha : schemaItemResult a with
      | error e => simp [recordEntryStrings, ha] at h
      | ok r =>
        cases hrest : recordEntryStrings rest opts with
        | error e => simp [recordEntryStrings, ha, hrest] at h
        | ok l' =>
          have h1 := kindsKnown_of_result_ok a r ha
          have h2 := kindsKnownProps_of_ok rest opts l' hrest
          simp [AttrProps.kindsKnown, h1, h2]
end

/-- A successful optional-wrap encode implies a successful switch result. -/
theorem result_ok_of_toString_ok (a : Attribute) (opt : Option Bool) (s : String)
    (h : schemaItemToString a opt = .ok s) : ∃ r, schemaItemResult a = .ok r := by
  cases hr : schemaItemResult a with
  | error e => simp [schemaItemToString, hr] at h
  | ok r => exact ⟨r, rfl⟩

/-- A successful `generateAttributeSchema` implies a successful encode of
the attribute itself. -/
theorem toString_ok_of_attrSchema_ok (path : List String) (a : Attribute)
    (opt : Option Bool) (indent : String) (s : String)
    (h : generateAttributeSchema path a opt indent = .ok s) :
    ∃ r, schemaItemToString a opt = .ok r := by
  induction path generalizing indent s with
  | nil => exact ⟨s, h⟩
  | cons head tail ih =>
    cases tail with
    | nil =>
      cases hr : schemaItemToString a opt with
      | error e => simp [generateAttributeSchema, hr] at h
      | ok r => exact ⟨r, rfl⟩
    | cons h2 t2 =>
      cases hr : generateAttributeSchema (h2 :: t2) a opt (indent ++ indentation) with
      | error e => simp [generateAttributeSchema, hr] at h
      | ok r => exact ih (indent ++ indentation) r hr

/-- A successful top-level attributes loop implies recognized kinds for all
its properties. -/
theorem kindsKnown_of_attrsLoop_ok : ∀ (ps : AttrProps) (opts : Option (List String))
    (indent s : String), generateAttributesLoop ps opts indent = .ok s →
    ps.kindsKnown = true
  | .nil, _, _, _, _ => rfl
  | .cons k a rest, opts, indent, s, h => by
    cases he : generateAttributeSchema [k] a (some ((opts.getD []).contains k))
        (indent ++ indentation) with
    | error e =>
      simp only [generateAttributesLoop, he, exceptBindErr] at h
      exact Except.noConfusion h
    | ok entry =>
      cases hrest : generateAttributesLoop rest opts indent with
      | error e =>
        simp only [generateAttributesLoop, he, hrest, exceptBindOk, exceptBindErr] at h
        exact Except.noConfusion h
      | ok restStr =>
        obtain ⟨r, hr⟩ := toString_ok_of_attrSchema_ok _ _ _ _ _ he
        obtain ⟨r', hr'⟩ := result_ok_of_toString_ok _ _ _ hr
        have h1 := kindsKnown_of_result_ok a r' hr'
        have h2 := kindsKnown_of_attrsLoop_ok rest opts indent restStr hrest
        simp [AttrProps.kindsKnown, h1, h2]

/-- A successful collections loop implies recognized kinds in every listed
collection's schema. -/
theorem kindsKnown_of_collectionsLoop_ok (cs : List (String × CollectionDefinition))
    (indent : String) (s : String) (h : collectionsLoop cs indent = .ok s) :
    ∀ p ∈ cs, p.2.schema.properties.kindsKnown = true := by
  induction cs generalizing s with
  | nil => intro p hp; cases hp
  | cons c rest ih =>
    obtain ⟨key, cd⟩ := c
    intro p hp
    cases ha : generateAttributesSection cd.schema (indent ++ indentation) with
    | error e => simp [collectionsLoop, ha] at h
    | ok attrs =>
      cases hrest : collectionsLoop rest indent with
      | error e => simp [collectionsLoop, ha, hrest] at h
      | ok restStr =>
        rcases List.mem_cons.mp hp with hcur | hmem
        · subst hcur
          cases hl : generateAttributesLoop cd.schema.properties cd.schema.optional
              (indent ++ indentation) with
          | error e => simp [generateAttributesSection, hl] at ha
          | ok body => exact kindsKnown_of_attrsLoop_ok _ _ _ _ hl
        · exact ih restStr hrest p hmem

/-- C4: an attribute whose type tag is outside the recognized set encodes
to `UnknownAttributeKindError` carrying that tag; a successful module
encode therefore certifies that every attribute tree in every collection
carries only recognized tags, and an attribute-level error propagates
unchanged all the way through collection and module assembly, which then
produce no output at all (the `Except` is an error, not partial text). -/
theorem claim4_unknown_kind_propagation (a : Attribute) (opt : Option Bool)
    (ir : SchemaIR) (s : String) (e : CodegenError) (name key : String)
    (optset : Option (List String)) (rules : Option String) (version : Int) :
    (a.type ∉ knownAttributeTypes →
      schemaItemToString a opt = .error (.unknownAttributeKind a.type)) ∧
    (schemaFileContentFromJSON (some ir) = .ok s →
      ∀ p ∈ ir.collections, p.2.schema.properties.kindsKnown = true) ∧
    (schemaItemResult a = .error e →
      schemaFileContentFromJSON
        (some ⟨version, [(name, ⟨⟨.cons key a .nil, optset⟩, rules⟩)]⟩) = .error e) := by
  refine ⟨?_, ?_, ?_⟩
  · intro h
    cases a with
    | string o => exact absurd (show "string" ∈ knownAttributeTypes by decide) h
    | boolean o => exact absurd (show "boolean" ∈ knownAttributeTypes by decide) h
    | number o => exact absurd (show "number" ∈ knownAttributeTypes by decide) h
    | date o => exact absurd (show "date" ∈ knownAttributeTypes by decide) h
    | set items o => exact absurd (show "set" ∈ knownAttributeTypes by decide) h
    | record ps os => exact absurd (show "record" ∈ knownAttributeTypes by decide) h
    | query c q => exact absurd (show "query" ∈ knownAttributeTypes by decide) h
    | other t => rfl
  · intro h
    cases hb : collectionsLoop ir.collections indentation with
    | error e' =>
      simp [schemaFileContentFromJSON, collectionsDefinitionToFileContent, hb] at h
    | ok body => exact kindsKnown_of_collectionsLoop_ok _ _ _ hb
  · intro he
    simp [schemaFileContentFromJSON, collectionsDefinitionToFileContent,
      collectionsLoop, generateAttributesSection, generateAttributesLoop,
      generateAttributeSchema, schemaItemToString, he]

/-- Witness for C4: the spec's `uuid`-kind example errors at the attribute,
and the same error is the whole module encode's outcome. -/
theorem claim4_witness :
    schemaItemToString (.other "uuid") none = .error (.unknownAttributeKind "uuid") ∧
    schemaFileContentFromJSON
        (some ⟨1, [("todos", ⟨⟨.cons "id" (.other "uuid") .nil, none⟩, none⟩)]⟩) =
      .error (.unknownAttributeKind "uuid") :=
  ⟨(claim4_unknown_kind_propagation (.other "uuid") none ⟨1, []⟩ "" .invalidDefaultFunction
      "todos" "id" none none 1).1 (by decide),
   (claim4_unknown_kind_propagation (.other "uuid") none ⟨1, []⟩ ""
      (.unknownAttributeKind "uuid") "todos" "id" none none 1).2.2 rfl⟩

/-! ## Claim theorems: declaration-order preservation -/

/-- Each successful record entry starts with its own key marker, in
declaration order. -/
theorem recordEntries_forall2 : ∀ (ps : AttrProps) (opts : Option (List String))
    (l : List String), recordEntryStrings ps opts = .ok l →
    List.Forall₂ (fun m marker => ∃ t, m = marker ++ t) l
      (ps.keys.map fun k => "\x27" ++ k ++ "\x27: ")
  | .nil, _, l, h => by
    simp only [recordEntryStrings, exceptPureEq, Except.ok.injEq] at h
    subst h
    exact List.Forall₂.nil
  | .cons k a rest, opts, l, h => by
    cases ha : schemaItemResult a with
    | error e =>
      simp only [recordEntryStrings, ha, exceptBindErr] at h
      exact Except.noConfusion h
    | ok r =>
      cases hrest : recordEntryStrings rest opts with
      | error e =>
        simp only [recordEntryStrings, ha, hrest, exceptBindOk, exceptBindErr] at h
        exact Except.noConfusion h
      | ok l' =>
        simp only [recordEntryStrings, ha, hrest, exceptBindOk, exceptPureEq,
          Except.ok.injEq] at h
        subst h
        exact List.Forall₂.cons ⟨_, rfl⟩ (recordEntries_forall2 rest opts l' hrest)

/-- The optional wrap preserves marker order. -/
theorem emitsInOrder_wrapOptional (s : String) (b : Bool) (ms : List String)
    (h : emitsInOrder s ms) : emitsInOrder (wrapOptional s b) ms := by
  cases b with
  | false => simpa [wrapOptional] using h
  | true =>
    simp only [wrapOptional, if_pos]
    exact emitsInOrder_append _ _ _ (emitsInOrder_prepend _ _ _ h)

/-- A successful encode is the switch result, optionally wrapped. -/
theorem toString_shape (a : Attribute) (o : Option Bool) (s : String)
    (h : schemaItemToString a o = .ok s) :
    ∃ r, schemaItemResult a = .ok r ∧
      (s = r ∨ s = wrapOptional r (o.getD false)) := by
  cases hr : schemaItemResult a with
  | error e =>
    simp only [schemaItemToString, hr, exceptBindErr] at h
    exact Except.noConfusion h
  | ok r =>
    simp only [schemaItemToString, hr, exceptBindOk] at h
    cases hc : excludeOptional.contains a.type with
    | true =>
      simp only [hc, Bool.not_true, exceptPureEq, Except.ok.injEq,
        Bool.false_eq_true, if_false] at h
      exact ⟨r, rfl, Or.inl h.symm⟩
    | false =>
      simp only [hc, Bool.not_false, exceptPureEq, Except.ok.injEq, if_true] at h
      exact ⟨r, rfl, Or.inr h.symm⟩

/-- A successfully encoded record emits its property keys in declaration
order. -/
theorem record_emitsInOrder (ps : AttrProps) (opts : Option (List String))
    (o : Option Bool) (s : String) (h : schemaItemToString (.record ps opts) o = .ok s) :
    emitsInOrder s (ps.keys.map fun k => "\x27" ++ k ++ "\x27: ") := by
  obtain ⟨r, hr, hshape⟩ := toString_shape _ _ _ h
  cases hl : recordEntryStrings ps opts with
  | error e =>
    simp only [schemaItemResult, hl, exceptBindErr] at hr
    exact Except.noConfusion hr
  | ok l =>
    have hj := emitsInOrder_joinSep ",\n" l _ (recordEntries_forall2 ps opts l hl)
    simp only [schemaItemResult, hl, exceptBindOk, exceptPureEq, Except.ok.injEq] at hr
    have hbase : emitsInOrder r (ps.keys.map fun k => "\x27" ++ k ++ "\x27: ") := by
      rw [← hr]
      exact emitsInOrder_append _ _ _ (emitsInOrder_prepend _ _ _ hj)
    rcases hshape with hs | hs <;> subst hs
    · exact hbase
    · exact emitsInOrder_wrapOptional _ _ _ hbase

/-- The top-level attributes loop emits its property keys in declaration
order. -/
theorem attrsLoop_emitsInOrder : ∀ (ps : AttrProps) (opts : Option (List String))
    (indent s : String), generateAttributesLoop ps opts indent = .ok s →
    emitsInOrder s (ps.keys.map fun k => "\x27" ++ k ++ "\x27: ")
  | .nil, _, _, s, h => by
    simp only [generateAttributesLoop, exceptPureEq, Except.ok.injEq] at h
    subst h
    trivial
  | .cons k a rest, opts, indent, s, h => by
    cases he : generateAttributeSchema [k] a (some ((opts.getD []).contains k))
        (indent ++ indentation) with
    | error e =>
      simp only [generateAttributesLoop, he, exceptBindErr] at h
      exact Except.noConfusion h
    | ok entry =>
      cases hrest : generateAttributesLoop rest opts indent with
      | error e =>
        simp only [generateAttributesLoop, he, hrest, exceptBindOk, exceptBindErr] at h
        exact Except.noConfusion h
      | ok restStr =>
        simp only [generateAttributesLoop, he, hrest, exceptBindOk, exceptPureEq,
          Except.ok.injEq] at h
        subst h
        cases hs : schemaItemToString a (some ((opts.getD []).contains k)) with
        | error e =>
          simp only [generateAttributeSchema, hs, exceptBindErr] at he
          exact Except.noConfusion he
        | ok enc =>
          have hrec := attrsLoop_emitsInOrder rest opts indent restStr hrest
          simp only [generateAttributeSchema, hs, exceptBindOk, exceptPureEq,
            Except.ok.injEq] at he
          subst he
          refine ⟨indent ++ indentation, enc ++ (",\n" ++ restStr), ?_,
            emitsInOrder_prepend enc _ _ (emitsInOrder_prepend ",\n" _ _ hrec)⟩
          simp [String.append_assoc]

/-- The collections loop emits its collection keys in declaration order. -/
theorem collectionsLoop_emitsInOrder : ∀ (cs : List (String × CollectionDefinition))
    (indent s : String), collectionsLoop cs indent = .ok s →
    emitsInOrder s (cs.map fun c => "\x27" ++ c.1 ++ "\x27: \x7b\n")
  | [], _, _, _ => trivial
  | (key, cd) :: rest, indent, s, h => by
    cases ha : generateAttributesSection cd.schema (indent ++ indentation) with
    | error e =>
      simp only [collectionsLoop, ha, exceptBindErr] at h
      exact Except.noConfusion h
    | ok attrs =>
      cases hrest : collectionsLoop rest indent with
      | error e =>
        simp only [collectionsLoop, ha, hrest, exceptBindOk, exceptBindErr] at h
        exact Except.noConfusion h
      | ok restStr =>
        simp only [collectionsLoop, ha, hrest, exceptBindOk, exceptPureEq,
          Except.ok.injEq] at h
        subst h
        have hrec := collectionsLoop_emitsInOrder rest indent restStr hrest
        refine ⟨indent,
          attrs ++ (generateRulesSection cd.rules (indent ++ indentation) ++
            (indent ++ ("\x7d,\n" ++ restStr))), ?_,
          emitsInOrder_prepend attrs _ _ (emitsInOrder_prepend _ _ _
            (emitsInOrder_prepend indent _ _ (emitsInOrder_prepend "\x7d,\n" _ _ hrec)))⟩
        simp [String.append_assoc]

/-- C8: declaration (insertion) order is preserved — the collections
mapping emits its collection entries in list order, and both the top-level
properties loop and a record attribute emit their property entries in list
order. -/
theorem claim8_declaration_order (cs : List (String × CollectionDefinition))
    (indent s : String) (ps : AttrProps) (opts : Option (List String))
    (o : Option Bool) :
    (collectionsDefinitionToFileContent cs indent = .ok s →
      emitsInOrder s (cs.map fun c => "\x27" ++ c.1 ++ "\x27: \x7b\n")) ∧
    (generateAttributesLoop ps opts indent = .ok s →
      emitsInOrder s (ps.keys.map fun k => "\x27" ++ k ++ "\x27: ")) ∧
    (schemaItemToString (.record ps opts) o = .ok s →
      emitsInOrder s (ps.keys.map fun k => "\x27" ++ k ++ "\x27: ")) := by
  refine ⟨?_, ?_, ?_⟩
  · intro h
    cases hb : collectionsLoop cs indent with
    | error e =>
      simp only [collectionsDefinitionToFileContent, hb, exceptBindErr] at h
      exact Except.noConfusion h
    | ok body =>
      simp only [collectionsDefinitionToFileContent, hb, exceptBindOk, exceptPureEq,
        Except.ok.injEq] at h
      subst h
      exact emitsInOrder_append _ _ _ (emitsInOrder_append _ _ _
        (emitsInOrder_prepend "\x7b\n" _ _ (collectionsLoop_emitsInOrder cs indent body hb)))
  · exact attrsLoop_emitsInOrder ps opts indent s
  · exact record_emitsInOrder ps opts o s

/-- Witness for C8 on collections `[b, a]` and on a record / top-level
property list `[b, a]`: the `b` entry is emitted before the `a` entry. -/
theorem claim8_witness :
    emitsInOrder
      "\x7b\n  \x27b\x27: \x7b\n    schema: S.Schema(\x7b\n    \x7d),\n  \x7d,\n  \x27a\x27: \x7b\n    schema: S.Schema(\x7b\n    \x7d),\n  \x7d,\n\x7d"
      ["\x27b\x27: \x7b\n", "\x27a\x27: \x7b\n"] ∧
    emitsInOrder "    \x27b\x27: S.String(),\n    \x27a\x27: S.Number(),\n"
      ["\x27b\x27: ", "\x27a\x27: "] ∧
    emitsInOrder "S.Record(\x7b\x27b\x27: S.String(),\n\x27a\x27: S.Number()\x7d)"
      ["\x27b\x27: ", "\x27a\x27: "] :=
  ⟨(claim8_declaration_order [("b", ⟨⟨.nil, none⟩, none⟩), ("a", ⟨⟨.nil, none⟩, none⟩)]
      "  " _ .nil none none).1 rfl,
   (claim8_declaration_order []
      "  " _ (.cons "b" (.string ⟨none, none⟩) (.cons "a" (.number ⟨none, none⟩) .nil))
      none none).2.1 rfl,
   (claim8_declaration_order []
      "  " _ (.cons "b" (.string ⟨none, none⟩) (.cons "a" (.number ⟨none, none⟩) .nil))
      none none).2.2 rfl⟩

/-! ## Claim theorems: the empty / undefined schema -/

/-- C9: an undefined input schema still produces a complete module text —
the machine-generated header comment, the import line and an exported
`schema` constant whose collections object literal is empty — rather than
failing or returning empty output. -/
theorem claim9_undefined_schema_module :
    schemaFileContentFromSchema none =
      .ok "/**\n * This file is auto-generated by the Triplit CLI.\n */ \n\nimport \x7b Schema as S \x7d from \x27@triplit/db\x27;\nexport const schema = \x7b\n\x7d;\n" ∧
    hasSubstr
      "/**\n * This file is auto-generated by the Triplit CLI.\n */ \n\nimport \x7b Schema as S \x7d from \x27@triplit/db\x27;\nexport const schema = \x7b\n\x7d;\n"
      "This file is auto-generated by the Triplit CLI." = true ∧
    hasSubstr
      "/**\n * This file is auto-generated by the Triplit CLI.\n */ \n\nimport \x7b Schema as S \x7d from \x27@triplit/db\x27;\nexport const schema = \x7b\n\x7d;\n"
      "import \x7b Schema as S \x7d from \x27@triplit/db\x27;" = true ∧
    hasSubstr
      "/**\n * This file is auto-generated by the Triplit CLI.\n */ \n\nimport \x7b Schema as S \x7d from \x27@triplit/db\x27;\nexport const schema = \x7b\n\x7d;\n"
      "export const schema = \x7b\n\x7d;" = true ∧
    "/**\n * This file is auto-generated by the Triplit CLI.\n */ \n\nimport \x7b Schema as S \x7d from \x27@triplit/db\x27;\nexport const schema = \x7b\n\x7d;\n" ≠ "" :=
  ⟨rfl, rfl, rfl, rfl, by decide⟩

end Codegen
